import Mathlib

/-!
A shallow embedding of the Deno edge service (the survey-response store over
Deno KV and the chat relay).  Dynamic JSON values are modelled by `JsVal`,
the KV store by a list of key/value entries kept in ascending key order (the
order Deno KV scans deliver), and each HTTP handler by a pure function from
its inputs (parsed body / query parameters / upstream fragment stream) and
the current store to its response and the new store.
-/

namespace EdgeService

/-- Dynamic JSON-ish values as produced by `ctx.request.body.json()`;
`undefined` stands for JavaScript `undefined` (an absent field). -/
inductive JsVal where
  | undefined
  | null
  | bool (b : Bool)
  | num (n : Int)
  | str (s : String)
  | arr (elems : List JsVal)
  | obj (fields : List (String × JsVal))

mutual

def JsVal.decEq : (a b : JsVal) → Decidable (a = b)
  | .undefined, .undefined => isTrue rfl
  | .null, .null => isTrue rfl
  | .bool x, .bool y =>
    if h : x = y then isTrue (by rw [h]) else isFalse (fun e => h (JsVal.bool.inj e))
  | .num x, .num y =>
    if h : x = y then isTrue (by rw [h]) else isFalse (fun e => h (JsVal.num.inj e))
  | .str x, .str y =>
    if h : x = y then isTrue (by rw [h]) else isFalse (fun e => h (JsVal.str.inj e))
  | .arr x, .arr y =>
    match decEqValList x y with
    | isTrue h => isTrue (by rw [h])
    | isFalse h => isFalse (fun e => h (JsVal.arr.inj e))
  | .obj x, .obj y =>
    match decEqFieldList x y with
    | isTrue h => isTrue (by rw [h])
    | isFalse h => isFalse (fun e => h (JsVal.obj.inj e))
  | .undefined, .null | .undefined, .bool _ | .undefined, .num _ | .undefined, .str _ | .undefined, .arr _ | .undefined, .obj _ => isFalse (fun e => JsVal.noConfusion e)
  | .null, .undefined | .null, .bool _ | .null, .num _ | .null, .str _ | .null, .arr _ | .null, .obj _ => isFalse (fun e => JsVal.noConfusion e)
  | .bool _, .undefined | .bool _, .null | .bool _, .num _ | .bool _, .str _ | .bool _, .arr _ | .bool _, .obj _ => isFalse (fun e => JsVal.noConfusion e)
  | .num _, .undefined | .num _, .null | .num _, .bool _ | .num _, .str _ | .num _, .arr _ | .num _, .obj _ => isFalse (fun e => JsVal.noConfusion e)
  | .str _, .undefined | .str _, .null | .str _, .bool _ | .str _, .num _ | .str _, .arr _ | .str _, .obj _ => isFalse (fun e => JsVal.noConfusion e)
  | .arr _, .undefined | .arr _, .null | .arr _, .bool _ | .arr _, .num _ | .arr _, .str _ | .arr _, .obj _ => isFalse (fun e => JsVal.noConfusion e)
  | .obj _, .undefined | .obj _, .null | .obj _, .bool _ | .obj _, .num _ | .obj _, .str _ | .obj _, .arr _ => isFalse (fun e => JsVal.noConfusion e)

def decEqValList : (a b : List JsVal) → Decidable (a = b)
  | [], [] => isTrue rfl
  | [], _ :: _ => isFalse (fun e => List.noConfusion e)
  | _ :: _, [] => isFalse (fun e => List.noConfusion e)
  | x :: xs, y :: ys =>
    match JsVal.decEq x y with
    | isTrue h1 =>
      match decEqValList xs ys with
      | isTrue h2 => isTrue (by rw [h1, h2])
      | isFalse h2 => isFalse (fun e => h2 (List.cons.inj e).2)
    | isFalse h1 => isFalse (fun e => h1 (List.cons.inj e).1)

def decEqFieldList : (a b : List (String × JsVal)) → Decidable (a = b)
  | [], [] => isTrue rfl
  | [], _ :: _ => isFalse (fun e => List.noConfusion e)
  | _ :: _, [] => isFalse (fun e => List.noConfusion e)
  | (s, v) :: xs, (t, w) :: ys =>
    if hs : s = t then
      match JsVal.decEq v w with
      | isTrue h1 =>
        match decEqFieldList xs ys with
        | isTrue h2 => isTrue (by rw [hs, h1, h2])
        | isFalse h2 => isFalse (fun e => h2 (List.cons.inj e).2)
      | isFalse h1 => isFalse (fun e => h1 (congrArg Prod.snd (List.cons.inj e).1))
    else isFalse (fun e => hs (congrArg Prod.fst (List.cons.inj e).1))

end

instance : DecidableEq JsVal := JsVal.decEq

/-- JavaScript truthiness of a `JsVal` (`if (v)`): `undefined`, `null`,
`false`, `0`, and `""` are falsy; objects and arrays are always truthy. -/
def truthy : JsVal → Bool
  | .undefined => false
  | .null => false
  | .bool b => b
  | .num n => n != 0
  | .str s => s != ""
  | .arr _ => true
  | .obj _ => true

/-- Whether `typeof v === "object"` in JavaScript: objects, arrays and
`null` all have `typeof` `"object"`. -/
def typeofIsObject : JsVal → Bool
  | .null => true
  | .arr _ => true
  | .obj _ => true
  | _ => false

/-- JavaScript property access `v[k]` for a string key `k` on a receiver on
which access does not throw (anything but `null`/`undefined`; for those see
`destructure`): a field lookup on objects, `undefined` on everything else
(including arrays, whose string properties used here are never set). -/
def getField : JsVal → String → JsVal
  | .obj fields, k => (fields.lookup k).getD .undefined
  | _, _ => .undefined

/-- JavaScript destructuring `const { k } = v` (property access as an
rvalue): throws a `TypeError` when the receiver is `null` or `undefined`
(modelled as `none`; in the handlers the enclosing `catch` turns this into
a 500), otherwise reads the property. -/
def destructure (v : JsVal) (k : String) : Option JsVal :=
  match v with
  | .null => none
  | .undefined => none
  | _ => some (getField v k)

/-- JavaScript `a || b`. -/
def jsOr (a b : JsVal) : JsVal := if truthy a then a else b

/-- Whether `Array.isArray v`. -/
def isArray : JsVal → Bool
  | .arr _ => true
  | _ => false

/-- The stored record shape (`interface OnboardingResponse`): the two answer
fields are kept as dynamic values because `responses.teachLLMs || ""` stores
whatever truthy value the caller sent, defaulting to `""` only when the
field is falsy. -/
structure ResponseAnswers where
  teachLLMs : JsVal
  syntheticStudents : JsVal
deriving DecidableEq

structure OnboardingResponse where
  name : String
  timestamp : Nat
  responses : ResponseAnswers
deriving DecidableEq

/-- A KV key under the constant `"responses"` first component:
`["responses", timestamp, name]` is modelled as `(timestamp, name)`. -/
abbrev StoreKey := Nat × String

abbrev Entry := StoreKey × OnboardingResponse

/-- The KV store: entries in ascending key order, which is the order
`kv.list({ prefix: ["responses"] })` yields them in. -/
abbrev Store := List Entry

/-- Deno KV tuple ordering restricted to `(timestamp, name)` keys: numeric
on the timestamp, then lexicographic on the name. -/
def keyLt (a b : StoreKey) : Prop := a.1 < b.1 ∨ (a.1 = b.1 ∧ a.2 < b.2)

instance (a b : StoreKey) : Decidable (keyLt a b) := by
  unfold keyLt; infer_instance

/-- `kv.set key value`: insert into the ordered entry list, overwriting the
value when the exact key is already present (last write wins). -/
def kvSet (k : StoreKey) (v : OnboardingResponse) : Store → Store
  | [] => [(k, v)]
  | e :: rest =>
    if keyLt k e.1 then (k, v) :: e :: rest
    else if k = e.1 then (k, v) :: rest
    else e :: kvSet k v rest

/-- The `POST /responses` handler: validates `responses` with
`!responses || typeof responses !== "object"`, then stores the record under
`["responses", timestamp, name]` with `timestamp = Date.now()` (passed in as
`now`).  Returns the HTTP status and the store after the request. -/
def postResponses (st : Store) (name : String) (responses : JsVal) (now : Nat) :
    Nat × Store :=
  if !truthy responses || !typeofIsObject responses then (400, st)
  else
    (200, kvSet (now, name)
      { name := name
        timestamp := now
        responses :=
          { teachLLMs := jsOr (getField responses "teachLLMs") (.str "")
            syntheticStudents := jsOr (getField responses "syntheticStudents") (.str "") } }
      st)

/-- The first `continue` of the `GET /responses` scan:
`params.since && response.timestamp < params.since`. -/
def sinceSkip (since : Nat) (e : Entry) : Bool :=
  decide (since ≠ 0) && decide (e.2.timestamp < since)

/-- The second `continue` of the `GET /responses` scan:
`params.name && response.name !== params.name`; `nameF` is `none` when the
query parameter is absent (`url.searchParams.get` returned `null`). -/
def nameSkip (nameF : Option String) (e : Entry) : Bool :=
  match nameF with
  | none => false
  | some s => decide (s ≠ "") && decide (e.2.name ≠ s)

/-- An entry survives both `continue` checks of the `GET /responses` loop. -/
def passFilters (since : Nat) (nameF : Option String) (e : Entry) : Bool :=
  !sinceSkip since e && !nameSkip nameF e

/-- The `GET /responses` scan loop with its `skipped`/`included` counters.
Returns the collected entries together with the part of the scan that was
never visited (the iterator remainder at the `break`, empty when the scan
ran to exhaustion). -/
def listLoop (since : Nat) (nameF : Option String) (offset limit : Nat) :
    List Entry → Nat → Nat → List Entry × List Entry
  | [], _, _ => ([], [])
  | e :: rest, skipped, included =>
    if passFilters since nameF e then
      if skipped < offset then listLoop since nameF offset limit rest (skipped + 1) included
      else if limit ≤ included then ([], rest)
      else
        let r := listLoop since nameF offset limit rest skipped (included + 1)
        (e :: r.1, r.2)
    else listLoop since nameF offset limit rest skipped included

/-- The records returned by `GET /responses` (each with its KV key, as the
handler pushes `{...response, key: entry.key}`). -/
def listResponses (since : Nat) (nameF : Option String) (offset limit : Nat)
    (st : Store) : List Entry :=
  (listLoop since nameF offset limit st 0 0).1

/-- JavaScript `Math.min` against the running minimum, where `none` plays
the role of the initial `Infinity` sentinel. -/
def jsMin (a : Option Nat) (t : Nat) : Option Nat :=
  match a with
  | none => some t
  | some u => some (min u t)

/-- `Set.add`: append the name if it is not already present. -/
def addName (names : List String) (n : String) : List String :=
  if n ∈ names then names else names ++ [n]

/-- The accumulator of the `GET /responses/stats` scan; `first = none`
models the `Infinity` sentinel and `last = 0` the `0` sentinel. -/
structure StatsAcc where
  total : Nat
  uniqueNames : List String
  first : Option Nat
  last : Nat

def statsScan : List Entry → StatsAcc → StatsAcc
  | [], acc => acc
  | e :: rest, acc =>
    statsScan rest
      { total := acc.total + 1
        uniqueNames := addName acc.uniqueNames e.2.name
        first := jsMin acc.first e.2.timestamp
        last := max acc.last e.2.timestamp }

/-- The body returned by `GET /responses/stats` (the fields the handler
reports; `first`/`last` are `none` exactly when the handler reports
`null`, i.e. when the sentinel survived: `first === Infinity` and
`last === 0` respectively). -/
structure StatsOut where
  total : Nat
  uniqueParticipants : Nat
  first : Option Nat
  last : Option Nat
deriving DecidableEq

def statsOf (st : Store) : StatsOut :=
  let acc := statsScan st { total := 0, uniqueNames := [], first := none, last := 0 }
  { total := acc.total
    uniqueParticipants := acc.uniqueNames.length
    first := acc.first
    last := if acc.last = 0 then none else some acc.last }

/-- Outcome of `DELETE /responses/:name`: `badRequest` is the 400 for a
missing name segment, `storageError` the 500 taken when `Promise.all` over
the dispatched `kv.delete` calls rejects, `ok n` the
`{success, deleted: n}` body. -/
inductive DeleteResult where
  | badRequest
  | storageError
  | ok (deleted : Nat)
deriving DecidableEq

/-- The `DELETE /responses/:name` handler.  `fail k = true` means the
`kv.delete` dispatched for key `k` rejects.  All deletes are dispatched
before `Promise.all` is awaited, so the store loses every matching entry
whose individual delete succeeded even when the overall operation reports
the 500. -/
def postDeleteByName (st : Store) (name : String) (fail : StoreKey → Bool) :
    DeleteResult × Store :=
  if name = "" then (.badRequest, st)
  else if (st.filter (fun e => decide (e.2.name = name))).any (fun e => fail e.1) then
    (.storageError, st.filter (fun e => !(decide (e.2.name = name) && !fail e.1)))
  else
    (.ok (st.filter (fun e => decide (e.2.name = name))).length,
      st.filter (fun e => !(decide (e.2.name = name) && !fail e.1)))

/-- One outbound SSE frame of the chat relay. -/
inductive Frame where
  | content (s : String)
  | done
deriving DecidableEq

/-- The bytes a frame is encoded to (`data: ...\n\n`). -/
def encodeFrame : Frame → String
  | .content s => "data: " ++ s ++ "\n\n"
  | .done => "data: [DONE]\n\n"

/-- How the outbound `ReadableStream` terminates: a normal close or
`controller.error`. -/
inductive StreamEnd where
  | closed
  | errored
deriving DecidableEq

/-- The chat relay pump (`async start(controller)`): each upstream chunk
carries `chunk.choices[0]?.delta?.content` (modelled as `Option String`);
truthy content is forwarded as one frame.  `upErr = true` means the
upstream stream throws after yielding the listed chunks, which skips the
`[DONE]` enqueue and reaches `controller.error`. -/
def relayLoop : List (Option String) → Bool → List Frame × StreamEnd
  | [], upErr => if upErr then ([], .errored) else ([.done], .closed)
  | c :: rest, upErr =>
    let r := relayLoop rest upErr
    match c with
    | some s => if s = "" then r else (.content s :: r.1, r.2)
    | none => r

/-- Result of `POST /chat`: the 400 validation error body, the 500 body
produced by the handler's `catch` when something before the stream throws
(for example destructuring a `null` body), or a streamed response. -/
inductive ChatResult where
  | badRequest (status : Nat) (err : String)
  | serverError (status : Nat) (err : String)
  | streamOut (frames : List Frame) (ending : StreamEnd)
deriving DecidableEq

/-- The `POST /chat` handler.  `const { messages } = body` throws on a
`null`/`undefined` body and the `catch` answers 500; otherwise validation
is `!messages || !Array.isArray(messages)`.  The second component counts
how many upstream completion calls were made. -/
def postChat (body : JsVal) (chunks : List (Option String)) (upErr : Bool) :
    ChatResult × Nat :=
  match destructure body "messages" with
  | none => (.serverError 500 "Internal server error", 0)
  | some messages =>
    if !truthy messages || !isArray messages then
      (.badRequest 400 "Invalid messages format", 0)
    else
      let r := relayLoop chunks upErr
      (.streamOut r.1 r.2, 1)

/-- Store states reachable from the empty store by the handlers that
mutate it. -/
inductive Reachable : Store → Prop
  | empty : Reachable []
  | write (st : Store) (name : String) (responses : JsVal) (now : Nat)
      (h : Reachable st) : Reachable (postResponses st name responses now).2
  | deleteByName (st : Store) (name : String) (fail : StoreKey → Bool)
      (h : Reachable st) : Reachable (postDeleteByName st name fail).2

/-- Modelled from the spec, for comparison: the filter predicate claim C1
describes, "records passing the since filter (timestamp >= since) and name
filter (name equality)". -/
def specPassC1 (since : Nat) (nameF : Option String) (e : Entry) : Bool :=
  decide (since ≤ e.2.timestamp) &&
    (match nameF with
     | none => true
     | some s => decide (e.2.name = s))

/-- Modelled from the spec, for comparison: the records claim C1 says a
`list` call returns — the post-filter stream with `offset` dropped and at
most `limit` collected. -/
def specListC1 (since : Nat) (nameF : Option String) (offset limit : Nat)
    (st : Store) : List Entry :=
  ((st.filter (specPassC1 since nameF)).drop offset).take limit

/-- Modelled from the spec, for comparison: one "role/content turn" of
claim C9 — an object carrying `role` and `content` fields. -/
def isRoleContentTurn (v : JsVal) : Bool :=
  match v with
  | .obj fields => (fields.lookup "role").isSome && (fields.lookup "content").isSome
  | _ => false

/-- Modelled from the spec, for comparison: a "sequence of role/content
turns" of claim C9. -/
def isRoleContentSeq (v : JsVal) : Bool :=
  match v with
  | .arr elems => elems.all isRoleContentTurn
  | _ => false

/-- Modelled from the spec, for comparison: `t` is the minimum timestamp
among the stored records. -/
def isMinTimestamp (st : Store) (t : Nat) : Prop :=
  t ∈ st.map (fun e => e.2.timestamp) ∧ ∀ u ∈ st.map (fun e => e.2.timestamp), t ≤ u

/-- Modelled from the spec, for comparison: `t` is the maximum timestamp
among the stored records. -/
def isMaxTimestamp (st : Store) (t : Nat) : Prop :=
  t ∈ st.map (fun e => e.2.timestamp) ∧ ∀ u ∈ st.map (fun e => e.2.timestamp), u ≤ t

instance (st : Store) (t : Nat) : Decidable (isMinTimestamp st t) := by
  unfold isMinTimestamp; infer_instance

instance (st : Store) (t : Nat) : Decidable (isMaxTimestamp st t) := by
  unfold isMaxTimestamp; infer_instance

/-! ## Helper lemmas -/

/-- On natural upstream closure, the relay pump emits one content frame per
chunk with truthy content, in order, then the `[DONE]` sentinel, and closes. -/
theorem relayLoop_natural (chunks : List (Option String)) :
    relayLoop chunks false =
      (((chunks.filterMap id).filter (fun s => s ≠ "")).map Frame.content ++
        [Frame.done], StreamEnd.closed) := by
  induction chunks with
  | nil => rfl
  | cons c rest ih =>
    cases c with
    | none => simpa [relayLoop] using ih
    | some s =>
      by_cases hs : s = ""
      · simp [relayLoop, hs, ih]
      · simp [relayLoop, hs, ih]

/-- On an upstream error, the relay pump emits exactly the content frames of
the chunks yielded before the error, no sentinel, and errors the stream. -/
theorem relayLoop_error (chunks : List (Option String)) :
    relayLoop chunks true =
      (((chunks.filterMap id).filter (fun s => s ≠ "")).map Frame.content,
        StreamEnd.errored) := by
  induction chunks with
  | nil => rfl
  | cons c rest ih =>
    cases c with
    | none => simpa [relayLoop] using ih
    | some s =>
      by_cases hs : s = ""
      · simp [relayLoop, hs, ih]
      · simp [relayLoop, hs, ih]

/-- Everything in `kvSet k v st` is the new entry or an old one. -/
theorem mem_kvSet {k : StoreKey} {v : OnboardingResponse} {st : Store} {e : Entry}
    (h : e ∈ kvSet k v st) : e = (k, v) ∨ e ∈ st := by
  induction st with
  | nil => simpa [kvSet] using h
  | cons hd rest ih =>
    unfold kvSet at h
    by_cases h1 : keyLt k hd.1
    · simp only [if_pos h1, List.mem_cons] at h
      rcases h with h | h | h
      · exact Or.inl h
      · exact Or.inr (List.mem_cons.2 (Or.inl h))
      · exact Or.inr (List.mem_cons.2 (Or.inr h))
    · by_cases h2 : k = hd.1
      · simp only [if_neg h1, if_pos h2, List.mem_cons] at h
        rcases h with h | h
        · exact Or.inl h
        · exact Or.inr (List.mem_cons.2 (Or.inr h))
      · simp only [if_neg h1, if_neg h2, List.mem_cons] at h
        rcases h with h | h
        · exact Or.inr (List.mem_cons.2 (Or.inl h))
        · rcases ih h with h | h
          · exact Or.inl h
          · exact Or.inr (List.mem_cons.2 (Or.inr h))

/-- The written entry is present after `kvSet`. -/
theorem kvSet_mem_self (k : StoreKey) (v : OnboardingResponse) (st : Store) :
    (k, v) ∈ kvSet k v st := by
  induction st with
  | nil => simp [kvSet]
  | cons hd rest ih =>
    unfold kvSet
    by_cases h1 : keyLt k hd.1
    · simp [h1]
    · by_cases h2 : k = hd.1
      · rw [if_neg h1, if_pos h2]
        exact List.mem_cons_self _ _
      · simp only [if_neg h1, if_neg h2, List.mem_cons]
        exact Or.inr ih

/-- Setting a key not already present grows the store by one entry. -/
theorem kvSet_length_of_fresh {k : StoreKey} (v : OnboardingResponse) {st : Store}
    (h : k ∉ st.map Prod.fst) : (kvSet k v st).length = st.length + 1 := by
  induction st with
  | nil => rfl
  | cons hd rest ih =>
    simp only [List.map_cons, List.mem_cons] at h
    push_neg at h
    unfold kvSet
    by_cases h1 : keyLt k hd.1
    · simp [h1]
    · rw [if_neg h1, if_neg h.1]
      simp [ih h.2]

/-- The records collected by the `GET /responses` scan loop are the
post-filter stream with `offset - skipped` entries dropped and at most
`limit - included` taken: offset and limit act on the filtered stream. -/
theorem listLoop_fst_eq (since : Nat) (nameF : Option String) (offset limit : Nat) :
    ∀ (st : List Entry) (sk inc : Nat),
      (listLoop since nameF offset limit st sk inc).1 =
        ((st.filter (passFilters since nameF)).drop (offset - sk)).take (limit - inc) := by
  intro st
  induction st with
  | nil => intro sk inc; simp [listLoop]
  | cons e rest ih =>
    intro sk inc
    by_cases hp : passFilters since nameF e
    · by_cases hsk : sk < offset
      · rw [show (listLoop since nameF offset limit (e :: rest) sk inc) =
            listLoop since nameF offset limit rest (sk + 1) inc by
          simp [listLoop, hp, hsk]]
        rw [ih, List.filter_cons_of_pos hp,
          show offset - sk = (offset - (sk + 1)) + 1 by omega, List.drop_succ_cons]
      · by_cases hinc : limit ≤ inc
        · rw [show (listLoop since nameF offset limit (e :: rest) sk inc) = ([], rest) by
            simp [listLoop, hp, hsk, hinc]]
          simp [Nat.sub_eq_zero_of_le hinc]
        · rw [show (listLoop since nameF offset limit (e :: rest) sk inc) =
              ((e :: (listLoop since nameF offset limit rest sk (inc + 1)).1,
                (listLoop since nameF offset limit rest sk (inc + 1)).2) :
                List Entry × List Entry) by
            simp [listLoop, hp, hsk, hinc]]
          rw [List.filter_cons_of_pos hp, show offset - sk = 0 by omega,
            List.drop_zero]
          show e :: (listLoop since nameF offset limit rest sk (inc + 1)).1 = _
          rw [ih, show offset - sk = 0 by omega, List.drop_zero,
            show limit - inc = (limit - (inc + 1)) + 1 by omega, List.take_succ_cons]
    · rw [show (listLoop since nameF offset limit (e :: rest) sk inc) =
          listLoop since nameF offset limit rest sk inc by simp [listLoop, hp]]
      rw [ih, List.filter_cons_of_neg hp]

/-- Early stop: once the scan has seen `offset + limit + 1` entries passing
the filters inside `l1`, it `break`s there, so the iterator remainder is
the remainder within `l1` followed by the whole of `l2`, which is never
visited. -/
theorem listLoop_snd_append (since : Nat) (nameF : Option String) (offset limit : Nat) :
    ∀ (l1 l2 : List Entry) (sk inc : Nat),
      (offset - sk) + (limit - inc) + 1 ≤ (l1.filter (passFilters since nameF)).length →
      (listLoop since nameF offset limit (l1 ++ l2) sk inc).2 =
        (listLoop since nameF offset limit l1 sk inc).2 ++ l2 := by
  intro l1
  induction l1 with
  | nil =>
    intro l2 sk inc h
    simp at h
  | cons e rest ih =>
    intro l2 sk inc h
    rw [List.cons_append]
    by_cases hp : passFilters since nameF e
    · rw [List.filter_cons_of_pos hp, List.length_cons] at h
      by_cases hsk : sk < offset
      · rw [show (listLoop since nameF offset limit (e :: (rest ++ l2)) sk inc) =
            listLoop since nameF offset limit (rest ++ l2) (sk + 1) inc by
          simp [listLoop, hp, hsk]]
        rw [show (listLoop since nameF offset limit (e :: rest) sk inc) =
            listLoop since nameF offset limit rest (sk + 1) inc by
          simp [listLoop, hp, hsk]]
        exact ih l2 (sk + 1) inc (by omega)
      · by_cases hinc : limit ≤ inc
        · rw [show (listLoop since nameF offset limit (e :: (rest ++ l2)) sk inc) =
              ([], rest ++ l2) by simp [listLoop, hp, hsk, hinc]]
          rw [show (listLoop since nameF offset limit (e :: rest) sk inc) =
              ([], rest) by simp [listLoop, hp, hsk, hinc]]
        · rw [show (listLoop since nameF offset limit (e :: (rest ++ l2)) sk inc).2 =
              (listLoop since nameF offset limit (rest ++ l2) sk (inc + 1)).2 by
            simp [listLoop, hp, hsk, hinc]]
          rw [show (listLoop since nameF offset limit (e :: rest) sk inc).2 =
              (listLoop since nameF offset limit rest sk (inc + 1)).2 by
            simp [listLoop, hp, hsk, hinc]]
          exact ih l2 sk (inc + 1) (by omega)
    · rw [List.filter_cons_of_neg hp] at h
      rw [show (listLoop since nameF offset limit (e :: (rest ++ l2)) sk inc) =
          listLoop since nameF offset limit (rest ++ l2) sk inc by simp [listLoop, hp]]
      rw [show (listLoop since nameF offset limit (e :: rest) sk inc) =
          listLoop since nameF offset limit rest sk inc by simp [listLoop, hp]]
      exact ih l2 sk inc h

/-- As long as the name parameter is not the empty string, the scan's two
`continue` checks agree with the spec's filter (timestamp at least `since`,
name equality when the filter is set). -/
theorem passFilters_eq_specPass {since : Nat} {nameF : Option String}
    (hne : ∀ s, nameF = some s → s ≠ "") (e : Entry) :
    passFilters since nameF e = specPassC1 since nameF e := by
  cases nameF with
  | none =>
    simp only [passFilters, sinceSkip, nameSkip, specPassC1, Bool.not_false,
      Bool.and_true]
    rw [Bool.eq_iff_iff]
    simp
    omega
  | some s =>
    have hs : s ≠ "" := hne s rfl
    simp only [passFilters, sinceSkip, nameSkip, specPassC1]
    rw [Bool.eq_iff_iff]
    simp [hs]
    intro _ h0
    omega

theorem statsScan_total : ∀ (st : List Entry) (acc : StatsAcc),
    (statsScan st acc).total = acc.total + st.length := by
  intro st
  induction st with
  | nil => intro acc; simp [statsScan]
  | cons e rest ih =>
    intro acc
    rw [statsScan, ih]
    simp
    omega

theorem statsScan_first : ∀ (st : List Entry) (acc : StatsAcc),
    (statsScan st acc).first =
      (st.map (fun e => e.2.timestamp)).foldl jsMin acc.first := by
  intro st
  induction st with
  | nil => intro acc; simp [statsScan]
  | cons e rest ih =>
    intro acc
    rw [statsScan, ih]
    rfl

theorem statsScan_last : ∀ (st : List Entry) (acc : StatsAcc),
    (statsScan st acc).last =
      (st.map (fun e => e.2.timestamp)).foldl max acc.last := by
  intro st
  induction st with
  | nil => intro acc; simp [statsScan]
  | cons e rest ih =>
    intro acc
    rw [statsScan, ih]
    rfl

theorem addName_nodup {names : List String} (h : names.Nodup) (n : String) :
    (addName names n).Nodup := by
  unfold addName
  by_cases hn : n ∈ names
  · simpa [hn] using h
  · simp [hn, List.nodup_append, h]

theorem addName_toFinset (names : List String) (n : String) :
    (addName names n).toFinset = insert n names.toFinset := by
  unfold addName
  by_cases hn : n ∈ names
  · rw [if_pos hn, Finset.insert_eq_self.2 (List.mem_toFinset.2 hn)]
  · rw [if_neg hn]
    ext x
    simp [or_comm]

theorem statsScan_names : ∀ (st : List Entry) (acc : StatsAcc),
    acc.uniqueNames.Nodup →
      (statsScan st acc).uniqueNames.Nodup ∧
      (statsScan st acc).uniqueNames.toFinset =
        acc.uniqueNames.toFinset ∪ (st.map (fun e => e.2.name)).toFinset := by
  intro st
  induction st with
  | nil => intro acc h; simpa [statsScan] using h
  | cons e rest ih =>
    intro acc h
    rw [statsScan]
    obtain ⟨h1, h2⟩ := ih ⟨acc.total + 1, addName acc.uniqueNames e.2.name,
      jsMin acc.first e.2.timestamp, max acc.last e.2.timestamp⟩
      (addName_nodup h e.2.name)
    refine ⟨h1, ?_⟩
    rw [h2, addName_toFinset]
    ext x
    simp

theorem foldl_jsMin_some : ∀ (l : List Nat) (m : Nat),
    l.foldl jsMin (some m) = some (l.foldl min m) := by
  intro l
  induction l with
  | nil => intro m; rfl
  | cons x rest ih =>
    intro m
    rw [List.foldl_cons, List.foldl_cons, show jsMin (some m) x = some (min m x) from rfl, ih]

theorem foldl_jsMin_cons (x : Nat) (l : List Nat) :
    (x :: l).foldl jsMin none = some (l.foldl min x) := by
  rw [List.foldl_cons, show jsMin none x = some x from rfl, foldl_jsMin_some]

theorem foldl_min_le_init : ∀ (l : List Nat) (m : Nat), l.foldl min m ≤ m := by
  intro l
  induction l with
  | nil => intro m; exact le_refl m
  | cons x rest ih =>
    intro m
    rw [List.foldl_cons]
    exact le_trans (ih (min m x)) (min_le_left m x)

theorem foldl_min_le_mem : ∀ (l : List Nat) (m : Nat), ∀ u ∈ l, l.foldl min m ≤ u := by
  intro l
  induction l with
  | nil => intro m u hu; cases hu
  | cons x rest ih =>
    intro m u hu
    rw [List.foldl_cons]
    rcases List.mem_cons.1 hu with rfl | hu
    · exact le_trans (foldl_min_le_init rest (min m u)) (min_le_right m u)
    · exact ih (min m x) u hu

theorem foldl_min_mem : ∀ (l : List Nat) (m : Nat), l.foldl min m = m ∨ l.foldl min m ∈ l := by
  intro l
  induction l with
  | nil => intro m; exact Or.inl rfl
  | cons x rest ih =>
    intro m
    rw [List.foldl_cons]
    rcases ih (min m x) with h | h
    · rcases min_choice m x with hm | hm
      · exact Or.inl (h.trans hm)
      · exact Or.inr (List.mem_cons.2 (Or.inl (h.trans hm)))
    · exact Or.inr (List.mem_cons.2 (Or.inr h))

theorem foldl_max_init_le : ∀ (l : List Nat) (m : Nat), m ≤ l.foldl max m := by
  intro l
  induction l with
  | nil => intro m; exact le_refl m
  | cons x rest ih =>
    intro m
    rw [List.foldl_cons]
    exact le_trans (le_max_left m x) (ih (max m x))

theorem foldl_max_mem_le : ∀ (l : List Nat) (m : Nat), ∀ u ∈ l, u ≤ l.foldl max m := by
  intro l
  induction l with
  | nil => intro m u hu; cases hu
  | cons x rest ih =>
    intro m u hu
    rw [List.foldl_cons]
    rcases List.mem_cons.1 hu with rfl | hu
    · exact le_trans (le_max_right m u) (foldl_max_init_le rest (max m u))
    · exact ih (max m x) u hu

theorem foldl_max_mem : ∀ (l : List Nat) (m : Nat), l.foldl max m = m ∨ l.foldl max m ∈ l := by
  intro l
  induction l with
  | nil => intro m; exact Or.inl rfl
  | cons x rest ih =>
    intro m
    rw [List.foldl_cons]
    rcases ih (max m x) with h | h
    · rcases max_choice m x with hm | hm
      · exact Or.inl (h.trans hm)
      · exact Or.inr (List.mem_cons.2 (Or.inl (h.trans hm)))
    · exact Or.inr (List.mem_cons.2 (Or.inr h))

theorem keyLt_trans {a b c : StoreKey} (h1 : keyLt a b) (h2 : keyLt b c) :
    keyLt a c := by
  rcases h1 with h1 | ⟨e1, l1⟩ <;> rcases h2 with h2 | ⟨e2, l2⟩
  · exact Or.inl (lt_trans h1 h2)
  · exact Or.inl (e2 ▸ h1)
  · exact Or.inl (e1 ▸ h2)
  · exact Or.inr ⟨e1.trans e2, lt_trans l1 l2⟩

/-- Keys are totally ordered: failing both `keyLt a b` and equality forces
`keyLt b a`. -/
theorem keyLt_resolve {a b : StoreKey} (h1 : ¬keyLt a b) (h2 : a ≠ b) :
    keyLt b a := by
  rcases Nat.lt_trichotomy a.1 b.1 with h | h | h
  · exact absurd (Or.inl h) h1
  · rcases lt_trichotomy a.2 b.2 with hs | hs | hs
    · exact absurd (Or.inr ⟨h, hs⟩) h1
    · exact absurd (Prod.ext h hs) h2
    · exact Or.inr ⟨h.symm, hs⟩
  · exact Or.inl h

/-- Insertion by `kvSet` keeps the store in strictly ascending key order. -/
theorem kvSet_pairwise {k : StoreKey} {v : OnboardingResponse} {st : Store}
    (h : st.Pairwise (fun a b => keyLt a.1 b.1)) :
    (kvSet k v st).Pairwise (fun a b => keyLt a.1 b.1) := by
  induction st with
  | nil => simp [kvSet]
  | cons e rest ih =>
    rw [List.pairwise_cons] at h
    obtain ⟨he, hrest⟩ := h
    unfold kvSet
    by_cases h1 : keyLt k e.1
    · rw [if_pos h1, List.pairwise_cons]
      refine ⟨?_, List.pairwise_cons.2 ⟨he, hrest⟩⟩
      intro x hx
      rcases List.mem_cons.1 hx with rfl | hx
      · exact h1
      · exact keyLt_trans h1 (he x hx)
    · by_cases h2 : k = e.1
      · rw [if_neg h1, if_pos h2, List.pairwise_cons]
        exact ⟨fun x hx => h2 ▸ he x hx, hrest⟩
      · rw [if_neg h1, if_neg h2, List.pairwise_cons]
        refine ⟨?_, ih hrest⟩
        intro x hx
        rcases mem_kvSet hx with rfl | hx
        · exact keyLt_resolve h1 h2
        · exact he x hx

/-- Every reachable store is in strictly ascending key order (the order the
KV scan yields). -/
theorem reachable_sorted {st : Store} (h : Reachable st) :
    st.Pairwise (fun a b => keyLt a.1 b.1) := by
  induction h with
  | empty => exact List.Pairwise.nil
  | write st name responses now hr ih =>
    unfold postResponses
    split
    · exact ih
    · exact kvSet_pairwise ih
  | deleteByName st name fail hr ih =>
    unfold postDeleteByName
    split
    · exact ih
    · split
      · exact ih.sublist (List.filter_sublist st)
      · exact ih.sublist (List.filter_sublist st)

/-- In every reachable store an entry's key components equal the record's
`timestamp` and `name` fields. -/
theorem reachable_keyFields {st : Store} (h : Reachable st) :
    ∀ e ∈ st, e.1.1 = e.2.timestamp ∧ e.1.2 = e.2.name := by
  induction h with
  | empty => intro e he; cases he
  | write st name responses now hr ih =>
    intro e he
    unfold postResponses at he
    split at he
    · exact ih e he
    · rcases mem_kvSet he with rfl | he
      · exact ⟨rfl, rfl⟩
      · exact ih e he
  | deleteByName st name fail hr ih =>
    intro e he
    unfold postDeleteByName at he
    split at he
    · exact ih e he
    · split at he
      · exact ih e (List.mem_filter.1 he).1
      · exact ih e (List.mem_filter.1 he).1

/-- In every reachable store the records appear in non-decreasing timestamp
order, because the key's second component is the timestamp and keys
ascend. -/
theorem reachable_ts_pairwise {st : Store} (h : Reachable st) :
    st.Pairwise (fun a b => a.2.timestamp ≤ b.2.timestamp) := by
  have hf := reachable_keyFields h
  refine (reachable_sorted h).imp_of_mem ?_
  intro a b ha hb hab
  have h1 := (hf a ha).1
  have h2 := (hf b hb).1
  rcases hab with hlt | ⟨heq, _⟩
  · omega
  · omega

/-! ## Claim theorems -/

/-- Claim C4: for every finite sequence of upstream fragments ending in
natural closure, the chat relay emits, in upstream order, exactly one event
frame `data: <text>\n\n` per fragment carrying non-empty text content (no
batching, coalescing, or reordering), then exactly one final sentinel frame
`data: [DONE]\n\n`, then closes the outbound stream; in particular fragments
`["Hel", "lo"]` yield exactly `data: Hel\n\n`, `data: lo\n\n`,
`data: [DONE]\n\n` in that order. -/
theorem claim_C4 :
    (∀ chunks : List (Option String),
      relayLoop chunks false =
        (((chunks.filterMap id).filter (fun s => s ≠ "")).map Frame.content ++
          [Frame.done], StreamEnd.closed)) ∧
    (relayLoop [some "Hel", some "lo"] false).1.map encodeFrame =
      ["data: Hel\n\n", "data: lo\n\n", "data: [DONE]\n\n"] ∧
    (relayLoop [some "Hel", some "lo"] false).2 = StreamEnd.closed := by
  refine ⟨relayLoop_natural, ?_, ?_⟩ <;> rfl

/-- Claim C5: if the upstream stream errors at any point after streaming has
begun, the chat relay emits no further frames after the error — in
particular the `data: [DONE]` sentinel is never emitted — and the outbound
stream is terminated via an error signal rather than a normal close; the
frames emitted before the error are exactly those for the non-empty
fragments yielded before the error. -/
theorem claim_C5 (chunks : List (Option String)) :
    relayLoop chunks true =
      (((chunks.filterMap id).filter (fun s => s ≠ "")).map Frame.content,
        StreamEnd.errored) ∧
    Frame.done ∉ (relayLoop chunks true).1 ∧
    (relayLoop chunks true).2 ≠ StreamEnd.closed := by
  refine ⟨relayLoop_error chunks, ?_, ?_⟩
  · rw [relayLoop_error]
    simp
  · rw [relayLoop_error]
    simp

/-- Claim C8: `write(name, answers)` with `answers` absent, `null`, or not a
structured value fails with a `ValidationError` (400) and leaves the store
unchanged (nothing stored); `write(name, {})` with an empty answers object
succeeds, storing exactly one new record whose `teachLLMs` and
`syntheticStudents` fields are both the empty string. -/
theorem claim_C8 (st : Store) (name : String) (v : JsVal) (now : Nat) :
    ((v = .undefined ∨ v = .null ∨ typeofIsObject v = false) →
      postResponses st name v now = (400, st)) ∧
    postResponses st name (.obj []) now =
      (200, kvSet (now, name) ⟨name, now, ⟨.str "", .str ""⟩⟩ st) ∧
    ((now, name) ∉ st.map Prod.fst →
      ((postResponses st name (.obj []) now).2).length = st.length + 1) ∧
    ((now, name), (⟨name, now, ⟨.str "", .str ""⟩⟩ : OnboardingResponse)) ∈
      (postResponses st name (.obj []) now).2 := by
  refine ⟨?_, rfl, ?_, ?_⟩
  · rintro (rfl | rfl | hobj)
    · rfl
    · rfl
    · simp [postResponses, hobj]
  · intro hfresh
    show (kvSet (now, name) _ st).length = st.length + 1
    exact kvSet_length_of_fresh _ hfresh
  · exact kvSet_mem_self _ _ _

/-- Claim C8 witness: at a concrete input, an absent answers object is
rejected with 400 and the store is unchanged. -/
theorem claim_C8_witness :
    postResponses [] "dana" JsVal.undefined 7 = (400, []) ∧
    postResponses [] "dana" (.obj []) 7 =
      (200, [((7, "dana"), ⟨"dana", 7, ⟨.str "", .str ""⟩⟩)]) ∧
    ((postResponses [] "dana" (.obj []) 7).2).length = 0 + 1 :=
  ⟨(claim_C8 [] "dana" JsVal.undefined 7).1 (Or.inl rfl),
    (claim_C8 [] "dana" (.obj []) 7).2.1,
    (claim_C8 [] "dana" (.obj []) 7).2.2.1 (by decide)⟩

/-- Claim C10: `write`'s validation accepts exactly those `responses` values
that are truthy and of object type; in particular, an array passes
validation — `write(name, [])` succeeds and stores a record with both answer
fields defaulted to the empty string — while falsy values (`undefined`,
`null`, `0`, `""`) and non-object primitives are rejected with 400 and
nothing stored. -/
theorem claim_C10 (st : Store) (name : String) (v : JsVal) (now : Nat) :
    ((postResponses st name v now).1 = 200 ↔
      truthy v = true ∧ typeofIsObject v = true) ∧
    postResponses st name (.arr []) now =
      (200, kvSet (now, name) ⟨name, now, ⟨.str "", .str ""⟩⟩ st) ∧
    (truthy v = false ∨ typeofIsObject v = false →
      postResponses st name v now = (400, st)) := by
  refine ⟨?_, rfl, ?_⟩
  · by_cases h1 : truthy v <;> by_cases h2 : typeofIsObject v <;>
      simp [postResponses, h1, h2]
  · rintro (h | h) <;> simp [postResponses, h]

/-- Claim C10 witness: at concrete inputs, the falsy primitive `0` is
rejected leaving the store unchanged, and an empty array is accepted and
stored with both answer fields defaulted to `""`. -/
theorem claim_C10_witness :
    postResponses [] "kim" (.num 0) 9 = (400, []) ∧
    postResponses [] "kim" (.arr []) 9 =
      (200, [((9, "kim"), ⟨"kim", 9, ⟨.str "", .str ""⟩⟩)]) :=
  ⟨(claim_C10 [] "kim" (.num 0) 9).2.2 (Or.inl rfl),
    (claim_C10 [] "kim" (.arr []) 9).2.1⟩

/-- Claim C3 counterexample: the store produced by one write at timestamp 0
holds one record whose maximum timestamp is 0, yet the handler reports
`timeRange.last` as `null` because of the `last === 0 ? null : last`
sentinel check — the claim's "last equal to the maximum timestamp" fails on
a non-empty store. -/
theorem claim_C3_counterexample :
    (postResponses [] "a" (.obj []) 0).2.map (fun e => e.2.timestamp) = [0] ∧
    (statsOf (postResponses [] "a" (.obj []) 0).2).total = 1 ∧
    (statsOf (postResponses [] "a" (.obj []) 0).2).last = none ∧
    (statsOf (postResponses [] "a" (.obj []) 0).2).last ≠ some 0 := by
  refine ⟨rfl, rfl, rfl, ?_⟩
  intro h
  exact Option.noConfusion h

/-- Claim C3 as amended: `stats()` visits every record under the
`"responses"` prefix and returns `total` equal to the number of records,
`uniqueParticipants` equal to the number of distinct name values,
`timeRange.first` equal to the minimum timestamp (absent exactly when no
records exist), and `timeRange.last` equal to the maximum timestamp
whenever that maximum is nonzero, but reported as absent (`null`) whenever
every timestamp is zero — in particular when zero records exist it returns
`total = 0`, `uniqueParticipants = 0`, and `first` and `last` absent; after
three writes for names `["a", "b", "a"]`, `uniqueParticipants = 2` and
`total = 3`. -/
theorem claim_C3_amended (st : Store) :
    (statsOf st).total = st.length ∧
    (statsOf st).uniqueParticipants = (st.map (fun e => e.2.name)).toFinset.card ∧
    ((statsOf st).first = none ↔ st = []) ∧
    (∀ t, (statsOf st).first = some t → isMinTimestamp st t) ∧
    ((statsOf st).last = none ↔ ∀ u ∈ st.map (fun e => e.2.timestamp), u = 0) ∧
    (∀ t, (statsOf st).last = some t → t ≠ 0 ∧ isMaxTimestamp st t) ∧
    (statsOf (postResponses
      ((postResponses ((postResponses [] "a" (.obj []) 1).2) "b" (.obj []) 2).2)
      "a" (.obj []) 3).2).uniqueParticipants = 2 ∧
    (statsOf (postResponses
      ((postResponses ((postResponses [] "a" (.obj []) 1).2) "b" (.obj []) 2).2)
      "a" (.obj []) 3).2).total = 3 := by
  refine ⟨?_, ?_, ?_, ?_, ?_, ?_, rfl, rfl⟩
  · show (statsScan st ⟨0, [], none, 0⟩).total = st.length
    rw [statsScan_total]
    simp
  · show (statsScan st ⟨0, [], none, 0⟩).uniqueNames.length =
      (st.map (fun e => e.2.name)).toFinset.card
    obtain ⟨h1, h2⟩ := statsScan_names st ⟨0, [], none, 0⟩ List.nodup_nil
    rw [← List.toFinset_card_of_nodup h1, h2]
    simp
  · show (statsScan st ⟨0, [], none, 0⟩).first = none ↔ st = []
    rw [statsScan_first]
    cases st with
    | nil => simp
    | cons e rest =>
      rw [List.map_cons, foldl_jsMin_cons]
      simp
  · intro t
    show (statsScan st ⟨0, [], none, 0⟩).first = some t → isMinTimestamp st t
    rw [statsScan_first]
    cases st with
    | nil => intro h; exact Option.noConfusion h
    | cons e rest =>
      rw [List.map_cons, foldl_jsMin_cons]
      intro h
      have ht : (rest.map (fun e => e.2.timestamp)).foldl min e.2.timestamp = t :=
        Option.some.inj h
      constructor
      · rw [← ht, List.map_cons]
        rcases foldl_min_mem (rest.map (fun e => e.2.timestamp)) e.2.timestamp with hm | hm
        · rw [hm]; exact List.mem_cons_self _ _
        · exact List.mem_cons_of_mem _ hm
      · intro u hu
        rw [List.map_cons, List.mem_cons] at hu
        rw [← ht]
        rcases hu with rfl | hu
        · exact foldl_min_le_init _ _
        · exact foldl_min_le_mem _ _ u hu
  · show (if (statsScan st ⟨0, [], none, 0⟩).last = 0 then none
        else some (statsScan st ⟨0, [], none, 0⟩).last) = none ↔
      ∀ u ∈ st.map (fun e => e.2.timestamp), u = 0
    rw [statsScan_last]
    by_cases hz : (st.map (fun e => e.2.timestamp)).foldl max 0 = 0
    · rw [if_pos hz]
      simp only [true_iff]
      intro u hu
      have := foldl_max_mem_le (st.map (fun e => e.2.timestamp)) 0 u hu
      omega
    · rw [if_neg hz]
      constructor
      · intro h
        exact Option.noConfusion h
      · intro hall
        exfalso
        apply hz
        rcases foldl_max_mem (st.map (fun e => e.2.timestamp)) 0 with hm | hm
        · exact hm
        · exact hall _ hm
  · intro t
    show (if (statsScan st ⟨0, [], none, 0⟩).last = 0 then none
        else some (statsScan st ⟨0, [], none, 0⟩).last) = some t →
      t ≠ 0 ∧ isMaxTimestamp st t
    rw [statsScan_last]
    by_cases hz : (st.map (fun e => e.2.timestamp)).foldl max 0 = 0
    · rw [if_pos hz]
      intro h
      exact Option.noConfusion h
    · rw [if_neg hz]
      intro h
      have ht := Option.some.inj h
      subst ht
      refine ⟨hz, ?_, ?_⟩
      · rcases foldl_max_mem (st.map (fun e => e.2.timestamp)) 0 with hm | hm
        · exact absurd hm hz
        · exact hm
      · intro u hu
        exact foldl_max_mem_le _ _ u hu

/-- Claim C3 witness: on a concrete two-record store, applying the theorem
reports `first = some 5` as the minimum timestamp and `last = some 7` as
the nonzero maximum timestamp. -/
theorem claim_C3_witness :
    isMinTimestamp
      [((5, "a"), ⟨"a", 5, ⟨.str "", .str ""⟩⟩),
       ((7, "b"), ⟨"b", 7, ⟨.str "", .str ""⟩⟩)] 5 ∧
    ((7 : Nat) ≠ 0 ∧ isMaxTimestamp
      [((5, "a"), ⟨"a", 5, ⟨.str "", .str ""⟩⟩),
       ((7, "b"), ⟨"b", 7, ⟨.str "", .str ""⟩⟩)] 7) :=
  ⟨(claim_C3_amended
      [((5, "a"), ⟨"a", 5, ⟨.str "", .str ""⟩⟩),
       ((7, "b"), ⟨"b", 7, ⟨.str "", .str ""⟩⟩)]).2.2.2.1 5 rfl,
   (claim_C3_amended
      [((5, "a"), ⟨"a", 5, ⟨.str "", .str ""⟩⟩),
       ((7, "b"), ⟨"b", 7, ⟨.str "", .str ""⟩⟩)]).2.2.2.2.2.1 7 rfl⟩

/-- Claim C9 counterexample: the body `{messages: [42]}` carries a
`messages` field that is not a sequence of role/content turns, yet the
handler does not return 400 and makes exactly one upstream call — the
validation only checks `Array.isArray`, not the shape of the turns. -/
theorem claim_C9_counterexample :
    isRoleContentSeq
      (getField (JsVal.obj [("messages", .arr [.num 42])]) "messages") = false ∧
    (postChat (JsVal.obj [("messages", .arr [.num 42])]) [some "hi"] false).2 = 1 ∧
    (postChat (JsVal.obj [("messages", .arr [.num 42])]) [some "hi"] false).1 ≠
      ChatResult.badRequest 400 "Invalid messages format" := by
  refine ⟨rfl, rfl, ?_⟩
  intro h
  exact ChatResult.noConfusion h

/-- Claim C9 as amended: a `null` or `undefined` request body makes the
handler's destructuring of `messages` throw, so the relay returns the 500
"Internal server error" body and makes no upstream call; for every other
request body whose `messages` field is falsy (in particular missing) or
not an array, the relay returns 400 with error "Invalid messages format"
and makes no upstream call; an array whose elements are not role/content
turns is, however, forwarded upstream unchecked. -/
theorem claim_C9_amended (body : JsVal) (chunks : List (Option String))
    (upErr : Bool) :
    ((body = .null ∨ body = .undefined) →
      postChat body chunks upErr =
        (.serverError 500 "Internal server error", 0)) ∧
    (∀ m, destructure body "messages" = some m →
      truthy m = false ∨ isArray m = false →
      postChat body chunks upErr =
        (.badRequest 400 "Invalid messages format", 0)) := by
  constructor
  · rintro (rfl | rfl) <;> rfl
  · intro m hm hv
    unfold postChat
    rw [hm]
    rcases hv with h | h <;> simp [h]

/-- Claim C9 witness: a body with no `messages` field is rejected with 400
and zero upstream calls, and the `null` body yields the 500 error body and
zero upstream calls. -/
theorem claim_C9_witness :
    postChat (JsVal.obj []) [some "hi"] false =
      (.badRequest 400 "Invalid messages format", 0) ∧
    postChat JsVal.null [some "hi"] false =
      (.serverError 500 "Internal server error", 0) :=
  ⟨(claim_C9_amended (JsVal.obj []) [some "hi"] false).2 .undefined rfl (Or.inl rfl),
   (claim_C9_amended JsVal.null [some "hi"] false).1 (Or.inl rfl)⟩

/-- Claim C6: for every store state reachable by writes (and deletes), a
`list()` call with no filters and a limit at least the number of stored
records returns all records, and they are in non-decreasing timestamp
order, as a consequence of the ascending `("responses", timestamp, name)`
tuple-key scan. -/
theorem claim_C6 (st : Store) (h : Reachable st) (L : Nat)
    (hL : st.length ≤ L) :
    listResponses 0 none 0 L st = st ∧
    st.Pairwise (fun a b => a.2.timestamp ≤ b.2.timestamp) := by
  constructor
  · unfold listResponses
    rw [listLoop_fst_eq]
    simp only [Nat.sub_zero]
    rw [List.filter_eq_self.2
      (fun e _ => by simp [passFilters, sinceSkip, nameSkip]),
      List.drop_zero, List.take_of_length_le hL]
  · exact reachable_ts_pairwise h

/-- Claim C6 witness: two writes with out-of-order timestamps (5 then 3)
land in a reachable store that `list` returns whole and in non-decreasing
timestamp order. -/
theorem claim_C6_witness :
    listResponses 0 none 0 2
      (postResponses (postResponses [] "b" (.obj []) 5).2 "a" (.obj []) 3).2 =
      (postResponses (postResponses [] "b" (.obj []) 5).2 "a" (.obj []) 3).2 ∧
    ((postResponses (postResponses [] "b" (.obj []) 5).2 "a"
      (.obj []) 3).2).Pairwise (fun a b => a.2.timestamp ≤ b.2.timestamp) :=
  claim_C6 _
    (Reachable.write _ "a" (.obj []) 3 (Reachable.write _ "b" (.obj []) 5 Reachable.empty))
    2 (by decide)

/-- Claim C7: for every reachable store state (any sequence of write and
deleteByName operations starting from the empty store), every persisted
entry's key is the tuple `("responses", t, n)` where `t` exactly equals the
stored record's `timestamp` field and `n` exactly equals its `name` field;
every operation preserves this invariant. -/
theorem claim_C7 (st : Store) (h : Reachable st) :
    ∀ e ∈ st, e.1.1 = e.2.timestamp ∧ e.1.2 = e.2.name :=
  reachable_keyFields h

/-- Claim C7 witness: in the concrete reachable store built by two writes
and one delete, the surviving entry's key components equal its record's
`timestamp` and `name` fields. -/
theorem claim_C7_witness :
    (((3, "a"), (⟨"a", 3, ⟨.str "", .str ""⟩⟩ : OnboardingResponse)) : Entry).1.1 =
      (((3, "a"), (⟨"a", 3, ⟨.str "", .str ""⟩⟩ : OnboardingResponse)) : Entry).2.timestamp ∧
    (((3, "a"), (⟨"a", 3, ⟨.str "", .str ""⟩⟩ : OnboardingResponse)) : Entry).1.2 =
      (((3, "a"), (⟨"a", 3, ⟨.str "", .str ""⟩⟩ : OnboardingResponse)) : Entry).2.name :=
  claim_C7
    (postDeleteByName
      (postResponses (postResponses [] "b" (.obj []) 5).2 "a" (.obj []) 3).2
      "b" (fun _ => false)).2
    (Reachable.deleteByName _ "b" (fun _ => false)
      (Reachable.write _ "a" (.obj []) 3
        (Reachable.write _ "b" (.obj []) 5 Reachable.empty)))
    ((3, "a"), ⟨"a", 3, ⟨.str "", .str ""⟩⟩) (by decide)

/-- Claim C1 counterexample.  Two concrete inputs refute the claim as
stated.  First, with the reachable query string `?name=` the name parameter
is the empty string, which is falsy, so the handler applies no name filter
at all: on a store holding one record named `"alice"` it returns that
record, while the claim's name-equality filter returns nothing.  Second,
with `limit = 1`, `offset = 0` and name filter `"x"` on a store whose first
entry matches and whose second does not, the scan has collected `limit`
records at the first entry yet still visits the second entry and runs to
exhaustion (the iterator remainder is empty, not the one-entry tail), so it
does not halt as soon as `limit` records have been collected. -/
theorem claim_C1_counterexample :
    listResponses 0 (some "") 0 100 [((1, "alice"), ⟨"alice", 1, ⟨.str "", .str ""⟩⟩)] ≠
      specListC1 0 (some "") 0 100 [((1, "alice"), ⟨"alice", 1, ⟨.str "", .str ""⟩⟩)] ∧
    (listLoop 0 (some "x") 0 1
      [((1, "x"), ⟨"x", 1, ⟨.str "", .str ""⟩⟩),
       ((2, "y"), ⟨"y", 2, ⟨.str "", .str ""⟩⟩)] 0 0).1 =
      [((1, "x"), ⟨"x", 1, ⟨.str "", .str ""⟩⟩)] ∧
    (listLoop 0 (some "x") 0 1
      [((1, "x"), ⟨"x", 1, ⟨.str "", .str ""⟩⟩),
       ((2, "y"), ⟨"y", 2, ⟨.str "", .str ""⟩⟩)] 0 0).2 ≠
      [((2, "y"), ⟨"y", 2, ⟨.str "", .str ""⟩⟩)] := by
  refine ⟨?_, rfl, ?_⟩
  · intro h
    exact List.noConfusion h
  · intro h
    exact List.noConfusion h

/-- Claim C1 as amended: for every store state and every filter
`{limit, offset, since, name}` in which the name parameter, when present,
is non-empty, `list` scans the `"responses"` prefix in ascending key order
and returns exactly the records passing the since filter
(`timestamp >= since`) and name filter (name equality), after skipping the
first `offset` entries that pass those filters, collecting at most `limit`
records (when the name parameter is the empty string the name filter is
simply not applied); and the scan halts at the first entry passing the
filters after `limit` records have been collected, leaving the rest of the
store unvisited, rather than continuing to exhaustion. -/
theorem claim_C1_amended (since : Nat) (nameF : Option String)
    (offset limit : Nat) (st l1 l2 : Store) :
    ((∀ s, nameF = some s → s ≠ "") →
      listResponses since nameF offset limit st =
        specListC1 since nameF offset limit st) ∧
    (offset + limit + 1 ≤ (l1.filter (passFilters since nameF)).length →
      (listLoop since nameF offset limit (l1 ++ l2) 0 0).2 =
        (listLoop since nameF offset limit l1 0 0).2 ++ l2) := by
  constructor
  · intro hne
    unfold listResponses specListC1
    rw [listLoop_fst_eq, Nat.sub_zero, Nat.sub_zero,
      List.filter_congr (fun e _ => passFilters_eq_specPass hne e)]
  · intro h
    exact listLoop_snd_append since nameF offset limit l1 l2 0 0 (by omega)

/-- Claim C1 witness: at a concrete filter (`since = 2`, name `"x"`,
`offset = 1`, `limit = 1`) and store, the returned records are exactly the
spec's post-filter drop/take, and with enough passing entries in the scanned
prefix the tail of the store is never visited. -/
theorem claim_C1_witness :
    listResponses 2 (some "x") 1 1
      [((1, "x"), ⟨"x", 1, ⟨.str "", .str ""⟩⟩),
       ((2, "x"), ⟨"x", 2, ⟨.str "", .str ""⟩⟩),
       ((3, "y"), ⟨"y", 3, ⟨.str "", .str ""⟩⟩),
       ((4, "x"), ⟨"x", 4, ⟨.str "", .str ""⟩⟩)] =
      specListC1 2 (some "x") 1 1
        [((1, "x"), ⟨"x", 1, ⟨.str "", .str ""⟩⟩),
         ((2, "x"), ⟨"x", 2, ⟨.str "", .str ""⟩⟩),
         ((3, "y"), ⟨"y", 3, ⟨.str "", .str ""⟩⟩),
         ((4, "x"), ⟨"x", 4, ⟨.str "", .str ""⟩⟩)] ∧
    (listLoop 0 none 0 1
      ([((1, "x"), ⟨"x", 1, ⟨.str "", .str ""⟩⟩),
        ((2, "x"), ⟨"x", 2, ⟨.str "", .str ""⟩⟩)] ++
       [((3, "y"), ⟨"y", 3, ⟨.str "", .str ""⟩⟩)]) 0 0).2 =
      (listLoop 0 none 0 1
        [((1, "x"), ⟨"x", 1, ⟨.str "", .str ""⟩⟩),
         ((2, "x"), ⟨"x", 2, ⟨.str "", .str ""⟩⟩)] 0 0).2 ++
        [((3, "y"), ⟨"y", 3, ⟨.str "", .str ""⟩⟩)] :=
  ⟨(claim_C1_amended 2 (some "x") 1 1
      [((1, "x"), ⟨"x", 1, ⟨.str "", .str ""⟩⟩),
       ((2, "x"), ⟨"x", 2, ⟨.str "", .str ""⟩⟩),
       ((3, "y"), ⟨"y", 3, ⟨.str "", .str ""⟩⟩),
       ((4, "x"), ⟨"x", 4, ⟨.str "", .str ""⟩⟩)] [] []).1
      (fun s h => by cases h; decide),
   (claim_C1_amended 0 none 0 1 []
      [((1, "x"), ⟨"x", 1, ⟨.str "", .str ""⟩⟩),
       ((2, "x"), ⟨"x", 2, ⟨.str "", .str ""⟩⟩)]
      [((3, "y"), ⟨"y", 3, ⟨.str "", .str ""⟩⟩)]).2 (by decide)⟩

/-- Claim C2 counterexample: a store with two records named `"x"` where one
of the two dispatched `kv.delete` calls rejects.  The handler awaits
`Promise.all` over the dispatched deletes, so the rejection reaches the
`catch` block and the request reports the 500 `storageError` — the `deleted`
count of 2 found at scan time is never reported, contradicting the claim
that the count is reported even when a subset of the deletes fail. -/
theorem claim_C2_counterexample :
    (([((1, "x"), ⟨"x", 1, ⟨.str "", .str ""⟩⟩),
       ((2, "x"), ⟨"x", 2, ⟨.str "", .str ""⟩⟩)] : Store).filter
        (fun e => decide (e.2.name = "x"))).length = 2 ∧
    (postDeleteByName
      [((1, "x"), ⟨"x", 1, ⟨.str "", .str ""⟩⟩),
       ((2, "x"), ⟨"x", 2, ⟨.str "", .str ""⟩⟩)] "x"
      (fun k => decide (k.1 = 1))).1 = DeleteResult.storageError ∧
    (postDeleteByName
      [((1, "x"), ⟨"x", 1, ⟨.str "", .str ""⟩⟩),
       ((2, "x"), ⟨"x", 2, ⟨.str "", .str ""⟩⟩)] "x"
      (fun k => decide (k.1 = 1))).1 ≠ DeleteResult.ok 2 := by
  refine ⟨rfl, rfl, ?_⟩
  intro h
  exact DeleteResult.noConfusion h

/-- Claim C2 as amended: for every store state and non-empty name,
`deleteByName(name)` reports a `deleted` count equal to the number of
records whose name field matched at scan time provided every dispatched
per-key delete succeeds, in which case every matching record is removed;
if any dispatched delete fails, the operation instead reports a storage
error (500) and no count, while the records whose deletes did succeed are
still gone. -/
theorem claim_C2_amended (st : Store) (name : String) (fail : StoreKey → Bool)
    (hname : name ≠ "") :
    ((∀ e ∈ st, e.2.name = name → fail e.1 = false) →
      postDeleteByName st name fail =
        (.ok (st.filter (fun e => decide (e.2.name = name))).length,
          st.filter (fun e => decide (e.2.name ≠ name)))) ∧
    ((∃ e ∈ st, e.2.name = name ∧ fail e.1 = true) →
      (postDeleteByName st name fail).1 = DeleteResult.storageError) := by
  constructor
  · intro hok
    unfold postDeleteByName
    rw [if_neg hname]
    have hany : (st.filter (fun e => decide (e.2.name = name))).any
        (fun e => fail e.1) = false := by
      rw [List.any_eq_false]
      intro e he
      rw [List.mem_filter] at he
      simp only [Bool.not_eq_true]
      exact hok e he.1 (of_decide_eq_true he.2)
    rw [if_neg (by rw [hany]; exact Bool.false_ne_true)]
    refine Prod.ext rfl ?_
    show st.filter _ = st.filter _
    apply List.filter_congr
    intro e he
    by_cases hn : e.2.name = name
    · simp [hn, hok e he hn]
    · simp [hn]
  · rintro ⟨e, he, hn, hf⟩
    unfold postDeleteByName
    rw [if_neg hname]
    have hany : (st.filter (fun e => decide (e.2.name = name))).any
        (fun e => fail e.1) = true := by
      rw [List.any_eq_true]
      exact ⟨e, List.mem_filter.2 ⟨he, decide_eq_true hn⟩, hf⟩
    rw [if_pos hany]

/-- Claim C2 witness: at a concrete store where every dispatched delete
succeeds, the count of matching records is reported and all of them are
removed; and at a store where the single matching delete fails, the
operation reports the storage error. -/
theorem claim_C2_witness :
    postDeleteByName
      [((1, "x"), ⟨"x", 1, ⟨.str "", .str ""⟩⟩),
       ((2, "y"), ⟨"y", 2, ⟨.str "", .str ""⟩⟩)] "x" (fun _ => false) =
      (DeleteResult.ok 1, [((2, "y"), ⟨"y", 2, ⟨.str "", .str ""⟩⟩)]) ∧
    (postDeleteByName
      [((4, "z"), ⟨"z", 4, ⟨.str "", .str ""⟩⟩)] "z" (fun _ => true)).1 =
      DeleteResult.storageError :=
  ⟨(claim_C2_amended
      [((1, "x"), ⟨"x", 1, ⟨.str "", .str ""⟩⟩),
       ((2, "y"), ⟨"y", 2, ⟨.str "", .str ""⟩⟩)] "x" (fun _ => false)
      (by decide)).1 (by decide),
   (claim_C2_amended
      [((4, "z"), ⟨"z", 4, ⟨.str "", .str ""⟩⟩)] "z" (fun _ => true)
      (by decide)).2
      ⟨((4, "z"), ⟨"z", 4, ⟨.str "", .str ""⟩⟩), by decide, rfl, rfl⟩⟩

end EdgeService
